import Mathlib

/-!
Shallow embedding of the in-process retrieval and resource-control layer of
the Multimodel-Video-Analysis backend (`backend/main.py`,
`backend/rate_limiting.py`), together with theorems settling the frozen
claims about it.

Modelling conventions, used throughout:
* Python floats (timestamps, durations, similarity scores, vector
  components) are modelled as exact rationals `ℚ`; the claims under study
  are about exact arithmetic relationships, not rounding.
* Python lists are Lean `List`s; `dict`-shaped embedding objects are
  normalized to their `values` list, exactly as `embedding_to_array` does.
* Exceptions are modelled as `Except` / sum results; an exception raised
  before any mutation leaves the modelled state unchanged, matching Python.
-/

namespace VideoAnalysis

/-- A transcript entry `{text, start, duration}` as consumed by
`create_chunks` (`backend/main.py`).  `duration` is optional because the
source reads it with `entry.get('duration', 3)`. -/
structure TranscriptEntry where
  text : String
  start : ℚ
  duration : Option ℚ
deriving DecidableEq, Repr

/-- A chunk `{text, start, end}` produced by `create_chunks`.  The source
field `end` is a Lean keyword, so it is named `endTime` here. -/
structure Chunk where
  text : String
  start : ℚ
  endTime : ℚ
deriving DecidableEq, Repr

/-- Model of Python's `" ".join(parts)`: empty string for an empty list,
otherwise the parts separated by single spaces. -/
def joinSpace : List String → String
  | [] => ""
  | [s] => s
  | s :: rest => s ++ " " ++ joinSpace rest

/-- Worker loop of `create_chunks` (`backend/main.py` lines 643–665): the
fold over `transcript` carrying the running `chunk_start` and the text
buffer `current_chunk`.  The source closes the current chunk when the
current entry is the last one or when the NEXT entry would start at or
beyond `chunk_start + chunk_duration`; after closing, `chunk_start`
becomes the next entry's `start`. -/
def createChunksAux (chunk_duration : ℚ) :
    List TranscriptEntry → ℚ → List String → List Chunk
  | [], _, _ => []
  | e :: rest, chunk_start, current_chunk =>
    let buf := current_chunk ++ [e.text]
    match rest with
    | [] =>
        [{ text := joinSpace buf,
           start := chunk_start,
           endTime := e.start + e.duration.getD 3 }]
    | e2 :: _ =>
        if chunk_duration ≤ e2.start - chunk_start then
          { text := joinSpace buf,
            start := chunk_start,
            endTime := e.start + e.duration.getD 3 } ::
            createChunksAux chunk_duration rest e2.start []
        else
          createChunksAux chunk_duration rest chunk_start buf

/-- Model of `create_chunks(transcript, chunk_duration=30)`
(`backend/main.py` lines 641–665).  Note that the source initializes
`chunk_start = 0`, NOT to the first entry's `start`. -/
def create_chunks (transcript : List TranscriptEntry)
    (chunk_duration : ℚ := 30) : List Chunk :=
  createChunksAux chunk_duration transcript 0 []

lemma createChunksAux_nil (dur s : ℚ) (buf : List String) :
    createChunksAux dur [] s buf = [] := rfl

lemma createChunksAux_single (dur s : ℚ) (buf : List String)
    (e : TranscriptEntry) :
    createChunksAux dur [e] s buf =
      [{ text := joinSpace (buf ++ [e.text]), start := s,
         endTime := e.start + e.duration.getD 3 }] := rfl

lemma createChunksAux_cons_cons (dur s : ℚ) (buf : List String)
    (e e2 : TranscriptEntry) (rest2 : List TranscriptEntry) :
    createChunksAux dur (e :: e2 :: rest2) s buf =
      if dur ≤ e2.start - s then
        { text := joinSpace (buf ++ [e.text]), start := s,
          endTime := e.start + e.duration.getD 3 } ::
          createChunksAux dur (e2 :: rest2) e2.start []
      else
        createChunksAux dur (e2 :: rest2) s (buf ++ [e.text]) := rfl

example :
    create_chunks [⟨"a", 0, some 5⟩, ⟨"b", 10, some 5⟩, ⟨"c", 40, some 5⟩] 30 =
      [⟨"a b", 0, 15⟩, ⟨"c", 40, 45⟩] := by
  norm_num [create_chunks, createChunksAux_cons_cons,
    createChunksAux_single, joinSpace]
  rfl

lemma createChunksAux_ne_nil (dur : ℚ) (ts : List TranscriptEntry)
    (s : ℚ) (buf : List String) (h : ts ≠ []) :
    createChunksAux dur ts s buf ≠ [] := by
  induction ts generalizing s buf with
  | nil => exact absurd rfl h
  | cons e rest ih =>
    cases rest with
    | nil => simp [createChunksAux_single]
    | cons e2 rest2 =>
      by_cases hc : dur ≤ e2.start - s
      · simp [createChunksAux_cons_cons, hc]
      · simpa [createChunksAux_cons_cons, hc] using
          ih s (buf ++ [e.text]) (by simp)

lemma createChunksAux_head_start (dur : ℚ) (ts : List TranscriptEntry)
    (s : ℚ) (buf : List String) (h : ts ≠ []) :
    (createChunksAux dur ts s buf).head?.map Chunk.start = some s := by
  induction ts generalizing s buf with
  | nil => exact absurd rfl h
  | cons e rest ih =>
    cases rest with
    | nil => simp [createChunksAux_single]
    | cons e2 rest2 =>
      by_cases hc : dur ≤ e2.start - s
      · simp [createChunksAux_cons_cons, hc]
      · simpa [createChunksAux_cons_cons, hc] using
          ih s (buf ++ [e.text]) (by simp)

lemma createChunksAux_last_end (dur : ℚ) (ts : List TranscriptEntry)
    (s : ℚ) (buf : List String) (h : ts ≠ []) :
    (createChunksAux dur ts s buf).getLast?.map Chunk.endTime =
      ts.getLast?.map (fun e => e.start + e.duration.getD 3) := by
  induction ts generalizing s buf with
  | nil => exact absurd rfl h
  | cons e rest ih =>
    cases rest with
    | nil => simp [createChunksAux_single]
    | cons e2 rest2 =>
      by_cases hc : dur ≤ e2.start - s
      · obtain ⟨c, cs, hcs⟩ :=
          List.exists_cons_of_ne_nil
            (createChunksAux_ne_nil dur (e2 :: rest2) e2.start [] (by simp))
        rw [createChunksAux_cons_cons, if_pos hc, hcs,
          List.getLast?_cons_cons, List.getLast?_cons_cons, ← hcs]
        exact ih e2.start [] (by simp)
      · rw [createChunksAux_cons_cons, if_neg hc, List.getLast?_cons_cons]
        exact ih s (buf ++ [e.text]) (by simp)

lemma createChunksAux_chain (dur : ℚ) (ts : List TranscriptEntry)
    (s : ℚ) (buf : List String) :
    (createChunksAux dur ts s buf).Chain'
      (fun a b => a.start + dur ≤ b.start) := by
  induction ts generalizing s buf with
  | nil => exact List.chain'_nil
  | cons e rest ih =>
    cases rest with
    | nil => simp [createChunksAux_single]
    | cons e2 rest2 =>
      by_cases hc : dur ≤ e2.start - s
      · rw [createChunksAux_cons_cons, if_pos hc, List.chain'_cons']
        refine ⟨?_, ih e2.start []⟩
        intro b hb
        have hhead := createChunksAux_head_start dur (e2 :: rest2) e2.start []
          (by simp)
        cases hx : (createChunksAux dur (e2 :: rest2) e2.start []).head? with
        | none => rw [hx] at hb; exact absurd hb (by simp)
        | some c =>
          rw [hx] at hb hhead
          simp only [Option.map_some', Option.some.injEq] at hhead
          simp only [Option.mem_def, Option.some.injEq] at hb
          subst hb
          simp only [hhead]
          linarith
      · rw [createChunksAux_cons_cons, if_neg hc]
        exact ih s (buf ++ [e.text])

lemma createChunksAux_start_mem (dur : ℚ) (ts : List TranscriptEntry)
    (s : ℚ) (buf : List String) :
    ∀ c ∈ createChunksAux dur ts s buf,
      c.start = s ∨ ∃ e ∈ ts, c.start = e.start := by
  induction ts generalizing s buf with
  | nil => simp [createChunksAux_nil]
  | cons e rest ih =>
    cases rest with
    | nil =>
      intro c hc
      simp only [createChunksAux_single, List.mem_singleton] at hc
      subst hc
      exact Or.inl rfl
    | cons e2 rest2 =>
      intro c hc
      by_cases hcond : dur ≤ e2.start - s
      · rw [createChunksAux_cons_cons, if_pos hcond, List.mem_cons] at hc
        rcases hc with hc | hc
        · subst hc; exact Or.inl rfl
        · rcases ih e2.start [] c hc with h1 | ⟨e3, he3, h3⟩
          · exact Or.inr ⟨e2, by simp, h1⟩
          · exact Or.inr ⟨e3, by simp [he3], h3⟩
      · rw [createChunksAux_cons_cons, if_neg hcond] at hc
        rcases ih s (buf ++ [e.text]) c hc with h1 | ⟨e3, he3, h3⟩
        · exact Or.inl h1
        · exact Or.inr ⟨e3, by simp [he3], h3⟩

/-- Claim C1 (amended): for every non-empty, time-ordered transcript and
positive chunk duration, `create_chunks` returns a non-empty chunk list in
which (a) the FIRST chunk starts at `0` — the fixed initial `chunk_start`
of the source — regardless of `entries[0].start`; (b) every chunk's start
is either that initial `0` or the start of some entry (each later chunk
opens at the entry following the previous chunk's closing entry); (c)
consecutive chunk starts are separated by at least the chunk duration; and
(d) the last chunk's end is `entries[-1].start + entries[-1].duration`
(duration defaulting to `3`).  The `[start, end)` ranges do NOT in general
cover `[entries[0].start, entries[-1].start + entries[-1].duration)`
without gaps or overlaps. -/
theorem create_chunks_boundary_structure
    (ts : List TranscriptEntry) (dur : ℚ) (hne : ts ≠ []) (hdur : 0 < dur)
    (hord : ts.Chain' (fun a b => a.start ≤ b.start)) :
    create_chunks ts dur ≠ [] ∧
    (create_chunks ts dur).head?.map Chunk.start = some 0 ∧
    (∀ c ∈ create_chunks ts dur,
      c.start = 0 ∨ ∃ e ∈ ts, c.start = e.start) ∧
    (create_chunks ts dur).Chain' (fun a b => a.start + dur ≤ b.start) ∧
    (create_chunks ts dur).getLast?.map Chunk.endTime =
      ts.getLast?.map (fun e => e.start + e.duration.getD 3) :=
  ⟨createChunksAux_ne_nil dur ts 0 [] hne,
   createChunksAux_head_start dur ts 0 [] hne,
   createChunksAux_start_mem dur ts 0 [],
   createChunksAux_chain dur ts 0 [],
   createChunksAux_last_end dur ts 0 [] hne⟩

/-- Witness for `create_chunks_boundary_structure` at the concrete
transcript `[("a", 5, 3), ("b", 40, 3)]` with chunk duration `30`. -/
theorem create_chunks_boundary_structure_witness :
    create_chunks [⟨"a", 5, some 3⟩, ⟨"b", 40, some 3⟩] 30 ≠ [] ∧
    (create_chunks [⟨"a", 5, some 3⟩, ⟨"b", 40, some 3⟩] 30).head?.map
      Chunk.start = some 0 ∧
    (∀ c ∈ create_chunks [⟨"a", 5, some 3⟩, ⟨"b", 40, some 3⟩] 30,
      c.start = 0 ∨
        ∃ e ∈ ([⟨"a", 5, some 3⟩, ⟨"b", 40, some 3⟩] :
          List TranscriptEntry), c.start = e.start) ∧
    (create_chunks [⟨"a", 5, some 3⟩, ⟨"b", 40, some 3⟩] 30).Chain'
      (fun a b => a.start + 30 ≤ b.start) ∧
    (create_chunks [⟨"a", 5, some 3⟩, ⟨"b", 40, some 3⟩] 30).getLast?.map
      Chunk.endTime =
      ([⟨"a", 5, some 3⟩, ⟨"b", 40, some 3⟩] :
        List TranscriptEntry).getLast?.map
        (fun e => e.start + e.duration.getD 3) :=
  create_chunks_boundary_structure
    [⟨"a", 5, some 3⟩, ⟨"b", 40, some 3⟩] 30 (by simp) (by norm_num)
    (by norm_num [List.chain'_cons])

/-- Counterexample to claim C1 as stated: for the time-ordered transcript
`[("a", 5, 3), ("b", 40, 3)]` and chunk duration `30`, the source produces
chunks `[0, 8)` and `[40, 43)`.  The first chunk's start is `0`, not
`entries[0].start = 5`, and the ranges leave the gap `[8, 40)`, so they do
not cover `[5, 43)` contiguously. -/
theorem create_chunks_claim_counterexample :
    (create_chunks [⟨"a", 5, some 3⟩, ⟨"b", 40, some 3⟩] 30).map
      Chunk.start = [0, 40] ∧
    (create_chunks [⟨"a", 5, some 3⟩, ⟨"b", 40, some 3⟩] 30).map
      Chunk.endTime = [8, 43] ∧
    ([⟨"a", 5, some 3⟩, ⟨"b", 40, some 3⟩] :
      List TranscriptEntry).head?.map TranscriptEntry.start = some 5 ∧
    (0 : ℚ) ≠ 5 ∧ (8 : ℚ) < 40 := by
  norm_num [create_chunks, createChunksAux, joinSpace]

/-- Claim C6: the source has no validation of `chunk_duration` at all — a
call with `chunk_duration = 0` is NOT rejected; it proceeds and (for
time-ordered entries) emits one chunk per entry, exactly the behaviour
the spec says must not happen. -/
theorem create_chunks_nonpositive_duration_not_rejected :
    create_chunks [⟨"a", 0, some 3⟩, ⟨"b", 1, some 3⟩] 0 =
      [⟨"a", 0, 3⟩, ⟨"b", 1, 4⟩] := by
  norm_num [create_chunks, createChunksAux, joinSpace]

/-! ## Embedding cache (`EmbeddingCache`, `backend/main.py` lines 129–183)

The source stores entries in a Python `OrderedDict`, modelled here as an
association list whose FRONT is the oldest entry (the one `popitem
(last=False)` removes) and whose BACK is the most recently touched one:
`get` promotes a hit with `move_to_end`, and a fresh `set` appends at the
back, so the list order is exactly the recency-of-touch order. -/

/-- An embedding vector: the `values` list of a Gemini embedding object. -/
abbrev Vec := List ℚ

/-- Cache key derivation `_hash_content` (`backend/main.py` lines
138–141).  The source applies SHA-256 to the string
`f"\x7btask_type\x7d:\x7bcontent\x7d"`; the hash is modelled by its
preimage string, which keys the same slots as a collision-free hash. -/
def cacheKey (content task_type : String) : String :=
  task_type ++ ":" ++ content

/-- State of `EmbeddingCache` (`backend/main.py` lines 129–183). -/
structure EmbeddingCache where
  cache : List (String × Vec)
  maxsize : ℕ
  hits : ℕ
  misses : ℕ
deriving DecidableEq, Repr

/-- Fresh cache as built by `EmbeddingCache.__init__(maxsize)`. -/
def EmbeddingCache.init (maxsize : ℕ) : EmbeddingCache :=
  { cache := [], maxsize := maxsize, hits := 0, misses := 0 }

/-- Python `OrderedDict.move_to_end(key)`: the (unique) entry with the
given key moves to the back; other entries keep their relative order. -/
def moveToEnd (l : List (String × Vec)) (k : String) :
    List (String × Vec) :=
  match l.find? (fun p => p.1 == k) with
  | none => l
  | some p => l.eraseP (fun q => q.1 == k) ++ [p]

/-- Python dict assignment `d[key] = v`: replace in place when the key is
present (position unchanged), otherwise append at the back. -/
def setKey (l : List (String × Vec)) (k : String) (v : Vec) :
    List (String × Vec) :=
  if (l.find? (fun p => p.1 == k)).isSome then
    l.map (fun p => if p.1 == k then (k, v) else p)
  else
    l ++ [(k, v)]

/-- Model of `EmbeddingCache.get` (`backend/main.py` lines 143–152):
returns the cached vector and the updated cache (hit counter bumped and
entry promoted on a hit, miss counter bumped otherwise). -/
def EmbeddingCache.get (c : EmbeddingCache) (content task_type : String) :
    Option Vec × EmbeddingCache :=
  let key := cacheKey content task_type
  match c.cache.find? (fun p => p.1 == key) with
  | some p =>
      (some p.2,
       { c with hits := c.hits + 1, cache := moveToEnd c.cache key })
  | none => (none, { c with misses := c.misses + 1 })

/-- Model of `EmbeddingCache.set` (`backend/main.py` lines 154–162).  When
the cache is at capacity the source first calls `popitem(last=False)`,
evicting the front (least recently touched) entry; on an EMPTY
`OrderedDict` (reachable only with `maxsize = 0`) that call raises
`KeyError` before any mutation, modelled as `none`. -/
def EmbeddingCache.set (c : EmbeddingCache) (content task_type : String)
    (v : Vec) : Option EmbeddingCache :=
  let key := cacheKey content task_type
  if c.maxsize ≤ c.cache.length then
    match c.cache with
    | [] => none
    | _ :: rest => some { c with cache := setKey rest key v }
  else
    some { c with cache := setKey c.cache key v }

/-- Model of `EmbeddingCache.clear` (`backend/main.py` lines 176–180). -/
def EmbeddingCache.clear (c : EmbeddingCache) : EmbeddingCache :=
  { c with cache := [], hits := 0, misses := 0 }

/-- One externally invocable cache operation. -/
inductive CacheOp where
  | get (content task_type : String)
  | set (content task_type : String) (v : Vec)
  | clear
deriving DecidableEq, Repr

/-- Apply one operation to the cache.  A `set` whose `popitem` raises
`KeyError` leaves the state unchanged, exactly as in the source, where the
exception propagates before any mutation. -/
def applyCacheOp (c : EmbeddingCache) : CacheOp → EmbeddingCache
  | .get content task_type => (c.get content task_type).2
  | .set content task_type v =>
      match c.set content task_type v with
      | some c2 => c2
      | none => c
  | .clear => c.clear

/-- Run a sequence of operations from the freshly constructed cache. -/
def runCacheOps (maxsize : ℕ) (ops : List CacheOp) : EmbeddingCache :=
  ops.foldl applyCacheOp (EmbeddingCache.init maxsize)

lemma setKey_length_le (l : List (String × Vec)) (k : String) (v : Vec) :
    (setKey l k v).length ≤ l.length + 1 := by
  unfold setKey
  split
  · simp
  · simp

lemma moveToEnd_length (l : List (String × Vec)) (k : String) :
    (moveToEnd l k).length = l.length := by
  unfold moveToEnd
  cases hf : l.find? (fun p => p.1 == k) with
  | none => rfl
  | some pr =>
    have hmem : pr ∈ l := List.mem_of_find?_eq_some hf
    have hp := List.find?_some hf
    have hpos : 0 < l.length := List.length_pos_of_mem hmem
    rw [List.length_append, List.length_eraseP_of_mem hmem hp]
    simp only [List.length_cons, List.length_nil]
    omega

lemma EmbeddingCache.set_maxsize (c : EmbeddingCache)
    (content task_type : String) (v : Vec) (c2 : EmbeddingCache)
    (h : c.set content task_type v = some c2) : c2.maxsize = c.maxsize := by
  unfold EmbeddingCache.set at h
  split at h
  · split at h
    · exact absurd h (by simp)
    · cases h; rfl
  · cases h; rfl

lemma applyCacheOp_maxsize (c : EmbeddingCache) (op : CacheOp) :
    (applyCacheOp c op).maxsize = c.maxsize := by
  cases op with
  | get content task_type =>
    simp only [applyCacheOp, EmbeddingCache.get]
    cases c.cache.find? (fun p => p.1 == cacheKey content task_type) <;> rfl
  | set content task_type v =>
    cases h : EmbeddingCache.set c content task_type v with
    | none => simp [applyCacheOp, h]
    | some c2 =>
      simp only [applyCacheOp, h]
      exact EmbeddingCache.set_maxsize c content task_type v c2 h
  | clear => rfl

lemma applyCacheOp_length (c : EmbeddingCache) (op : CacheOp)
    (h : c.cache.length ≤ c.maxsize) :
    (applyCacheOp c op).cache.length ≤ c.maxsize := by
  cases op with
  | get content task_type =>
    simp only [applyCacheOp, EmbeddingCache.get]
    cases hf : c.cache.find? (fun p => p.1 == cacheKey content task_type)
    · simpa using h
    · simpa [moveToEnd_length] using h
  | set content task_type v =>
    simp only [applyCacheOp, EmbeddingCache.set]
    by_cases hcap : c.maxsize ≤ c.cache.length
    · rw [if_pos hcap]
      cases hc : c.cache with
      | nil => simpa [hc] using h
      | cons x rest =>
        have hlen : rest.length + 1 = c.cache.length := by simp [hc]
        have := setKey_length_le rest (cacheKey content task_type) v
        simp only
        omega
    · rw [if_neg hcap]
      have := setKey_length_le c.cache (cacheKey content task_type) v
      simp only
      omega
  | clear => simp [applyCacheOp, EmbeddingCache.clear]

lemma foldl_cache_maxsize (ops : List CacheOp) (c : EmbeddingCache) :
    (ops.foldl applyCacheOp c).maxsize = c.maxsize := by
  induction ops generalizing c with
  | nil => rfl
  | cons op rest ih =>
    simp only [List.foldl_cons]
    rw [ih, applyCacheOp_maxsize]

lemma foldl_cache_invariant (ops : List CacheOp) (c : EmbeddingCache)
    (hc : c.cache.length ≤ c.maxsize) :
    (ops.foldl applyCacheOp c).cache.length ≤
      (ops.foldl applyCacheOp c).maxsize := by
  induction ops generalizing c with
  | nil => exact hc
  | cons op rest ih =>
    simp only [List.foldl_cons]
    refine ih _ ?_
    rw [applyCacheOp_maxsize]
    exact applyCacheOp_length c op hc

/-- Claim C9: after every sequence of `get`, `set`, and `clear` operations
starting from a freshly constructed cache, the number of stored entries
never exceeds the `maxsize` fixed at construction: `set` evicts (or, at
`maxsize = 0`, raises) before inserting whenever the cache is at
capacity, so the size bound is an invariant preserved by every
operation. -/
theorem cache_size_invariant (maxsize : ℕ) (ops : List CacheOp) :
    (runCacheOps maxsize ops).cache.length ≤ maxsize := by
  have h := foldl_cache_invariant ops (EmbeddingCache.init maxsize)
    (by simp [EmbeddingCache.init])
  rw [foldl_cache_maxsize] at h
  exact h

lemma find?_key_of_mem_nodup (l : List (String × Vec)) (p : String × Vec)
    (hmem : p ∈ l) (hnodup : (l.map Prod.fst).Nodup) :
    l.find? (fun q => q.1 == p.1) = some p := by
  induction l with
  | nil => cases hmem
  | cons q rs ih =>
    have hnodup2 : q.1 ∉ rs.map Prod.fst ∧ (rs.map Prod.fst).Nodup := by
      rw [List.map_cons, List.nodup_cons] at hnodup
      exact hnodup
    rcases List.mem_cons.mp hmem with h | hmem2
    · subst h
      exact List.find?_cons_of_pos _ (by simp)
    · have hq : q.1 ≠ p.1 := by
        intro hkey
        apply hnodup2.1
        rw [hkey]
        exact List.mem_map_of_mem Prod.fst hmem2
      rw [List.find?_cons_of_neg _ (by simp [hq])]
      exact ih hmem2 hnodup2.2

lemma find?_key_eq_none (l : List (String × Vec)) (k : String)
    (h : ∀ p ∈ l, p.1 ≠ k) :
    l.find? (fun q => q.1 == k) = none := by
  rw [List.find?_eq_none]
  intro p hp
  simpa using h p hp

/-- Claim C8: when the cache is at its capacity (as after inserting `N`
distinct keys, with gets possibly interleaved) and one more distinct key
is inserted through `set`, exactly the FRONT entry of the recency list —
the least-recently-touched key, since `get` promotes hits to the back and
fresh `set`s append at the back — is evicted: a `get` for it returns
absent, while every other stored key remains retrievable with its stored
vector, and the new key is retrievable with the new vector. -/
theorem cache_lru_eviction
    (c : EmbeddingCache) (content task_type : String) (v : Vec)
    (hfull : c.cache.length = c.maxsize) (hpos : 0 < c.maxsize)
    (hfresh : ∀ p ∈ c.cache, p.1 ≠ cacheKey content task_type)
    (hnodup : (c.cache.map Prod.fst).Nodup) :
    ∃ evicted rest,
      c.cache = evicted :: rest ∧
      c.set content task_type v = some
        { c with cache := rest ++ [(cacheKey content task_type, v)] } ∧
      (∀ content0 task0, cacheKey content0 task0 = evicted.1 →
        (({ c with cache := rest ++ [(cacheKey content task_type, v)] } :
            EmbeddingCache).get content0 task0).1 = none) ∧
      (∀ content0 task0 p, p ∈ rest → cacheKey content0 task0 = p.1 →
        (({ c with cache := rest ++ [(cacheKey content task_type, v)] } :
            EmbeddingCache).get content0 task0).1 = some p.2) ∧
      (({ c with cache := rest ++ [(cacheKey content task_type, v)] } :
          EmbeddingCache).get content task_type).1 = some v := by
  obtain ⟨evicted, rest, hc⟩ : ∃ evicted rest, c.cache = evicted :: rest := by
    cases hcc : c.cache with
    | nil => rw [hcc] at hfull; simp at hfull; omega
    | cons x xs => exact ⟨x, xs, rfl⟩
  have hfreshRest : ∀ p ∈ rest, p.1 ≠ cacheKey content task_type := by
    intro p hp
    exact hfresh p (by rw [hc]; exact List.mem_cons_of_mem _ hp)
  have hnodup2 : evicted.1 ∉ rest.map Prod.fst ∧
      (rest.map Prod.fst).Nodup := by
    rw [hc, List.map_cons, List.nodup_cons] at hnodup
    exact hnodup
  have hnodupRest : (rest.map Prod.fst).Nodup := hnodup2.2
  have hevNotRest : evicted.1 ∉ rest.map Prod.fst := hnodup2.1
  refine ⟨evicted, rest, hc, ?_, ?_, ?_, ?_⟩
  · unfold EmbeddingCache.set
    rw [if_pos (by omega), hc]
    simp only [Option.some.injEq]
    congr 1
    unfold setKey
    rw [find?_key_eq_none rest _ hfreshRest]
    simp
  · intro content0 task0 hkey
    have h1 : rest.find? (fun q => q.1 == cacheKey content0 task0) = none := by
      apply find?_key_eq_none
      intro p hp
      rw [hkey]
      intro h
      exact hevNotRest (h ▸ List.mem_map_of_mem Prod.fst hp)
    have h2 : List.find? (fun q => q.1 == cacheKey content0 task0)
        [(cacheKey content task_type, v)] = none := by
      apply find?_key_eq_none
      intro p hp
      simp only [List.mem_singleton] at hp
      subst hp
      rw [hkey]
      exact fun h => hfresh evicted
        (by rw [hc]; exact List.mem_cons_self _ _) h.symm
    simp only [EmbeddingCache.get, List.find?_append, h1, h2, Option.or]
  · intro content0 task0 p hp hkey
    have h1 : rest.find? (fun q => q.1 == cacheKey content0 task0) = some p := by
      rw [hkey]
      exact find?_key_of_mem_nodup rest p hp hnodupRest
    simp only [EmbeddingCache.get, List.find?_append, h1, Option.or]
  · have h1 : rest.find? (fun q => q.1 == cacheKey content task_type) = none :=
      find?_key_eq_none rest _ hfreshRest
    have h2 : List.find? (fun q => q.1 == cacheKey content task_type)
        [(cacheKey content task_type, v)] =
        some (cacheKey content task_type, v) :=
      List.find?_cons_of_pos _ (by simp)
    simp only [EmbeddingCache.get, List.find?_append, h1, h2, Option.or]

/-- Witness for `cache_lru_eviction`: a capacity-2 cache holding keys
`document:k1` (least recently touched, at the front) and `document:k2`;
inserting the fresh key `document:k3` evicts exactly `document:k1`. -/
theorem cache_lru_eviction_witness :
    ∃ evicted rest,
      (⟨[("document:k1", [1]), ("document:k2", [2])], 2, 0, 0⟩ :
        EmbeddingCache).cache = evicted :: rest ∧
      (⟨[("document:k1", [1]), ("document:k2", [2])], 2, 0, 0⟩ :
        EmbeddingCache).set "k3" "document" [3] = some
        { (⟨[("document:k1", [1]), ("document:k2", [2])], 2, 0, 0⟩ :
            EmbeddingCache) with
          cache := rest ++ [(cacheKey "k3" "document", [3])] } ∧
      (∀ content0 task0, cacheKey content0 task0 = evicted.1 →
        (({ (⟨[("document:k1", [1]), ("document:k2", [2])], 2, 0, 0⟩ :
              EmbeddingCache) with
            cache := rest ++ [(cacheKey "k3" "document", [3])] } :
            EmbeddingCache).get content0 task0).1 = none) ∧
      (∀ content0 task0 p, p ∈ rest → cacheKey content0 task0 = p.1 →
        (({ (⟨[("document:k1", [1]), ("document:k2", [2])], 2, 0, 0⟩ :
              EmbeddingCache) with
            cache := rest ++ [(cacheKey "k3" "document", [3])] } :
            EmbeddingCache).get content0 task0).1 = some p.2) ∧
      (({ (⟨[("document:k1", [1]), ("document:k2", [2])], 2, 0, 0⟩ :
            EmbeddingCache) with
          cache := rest ++ [(cacheKey "k3" "document", [3])] } :
          EmbeddingCache).get "k3" "document").1 = some [3] :=
  cache_lru_eviction
    ⟨[("document:k1", [1]), ("document:k2", [2])], 2, 0, 0⟩
    "k3" "document" [3] (by rfl) (by norm_num)
    (by
      intro p hp
      simp only [List.mem_cons, List.mem_singleton] at hp
      rcases hp with h | h | h
      · subst h; decide
      · subst h; decide
      · cases h)
    (by decide)

/-! ## Rate limiter (`backend/rate_limiting.py`)

`datetime` timestamps are modelled as rationals (seconds); `timedelta
(minutes=1)` and `timedelta(hours=1)` are the constants 60 and 3600.  The
per-IP `defaultdict(list)` maps are modelled as total functions from
client identity to timestamp list, defaulting to `[]`. -/

/-- Outcome of `RateLimiter.check_rate_limit`: either the request is
admitted, or an `HTTPException(429)` is raised whose detail names the
exceeded scope and its limit. -/
inductive RateResult where
  | allowed
  | minuteExceeded (limit : ℕ)
  | hourExceeded (limit : ℕ)
deriving DecidableEq, Repr

/-- State of `RateLimiter` (`backend/rate_limiting.py` lines 9–18). -/
structure RateLimiter where
  requests_per_minute : ℕ
  requests_per_hour : ℕ
  minute_requests : String → List ℚ
  hour_requests : String → List ℚ

/-- Pointwise update of a per-client map (Python dict assignment). -/
def fupdate (f : String → List ℚ) (k : String) (v : List ℚ) :
    String → List ℚ :=
  fun x => if x = k then v else f x

/-- Model of `RateLimiter._clean_old_requests` (`backend/rate_limiting.py`
lines 20–22): keep the timestamps STRICTLY newer than the cutoff. -/
def clean_old_requests (requests_list : List ℚ) (cutoff_time : ℚ) :
    List ℚ :=
  requests_list.filter (fun req_time => cutoff_time < req_time)

/-- Model of `RateLimiter.check_rate_limit` (`backend/rate_limiting.py`
lines 24–57).  The pruned windows are written back BEFORE the limit
checks; on rejection the exception is raised before the appends, so a
rejected request's timestamp enters neither window. -/
def RateLimiter.check_rate_limit (rl : RateLimiter) (client_ip : String)
    (now : ℚ) : RateResult × RateLimiter :=
  let m := clean_old_requests (rl.minute_requests client_ip) (now - 60)
  let h := clean_old_requests (rl.hour_requests client_ip) (now - 3600)
  if rl.requests_per_minute ≤ m.length then
    (.minuteExceeded rl.requests_per_minute,
     { rl with
        minute_requests := fupdate rl.minute_requests client_ip m,
        hour_requests := fupdate rl.hour_requests client_ip h })
  else if rl.requests_per_hour ≤ h.length then
    (.hourExceeded rl.requests_per_hour,
     { rl with
        minute_requests := fupdate rl.minute_requests client_ip m,
        hour_requests := fupdate rl.hour_requests client_ip h })
  else
    (.allowed,
     { rl with
        minute_requests := fupdate rl.minute_requests client_ip (m ++ [now]),
        hour_requests := fupdate rl.hour_requests client_ip (h ++ [now]) })

/-- The deployed global limiter instance (`backend/rate_limiting.py`
lines 83–86): 20 requests per minute, 200 per hour, empty windows. -/
def rate_limiter : RateLimiter :=
  { requests_per_minute := 20, requests_per_hour := 200,
    minute_requests := fun _ => [], hour_requests := fun _ => [] }

/-- Run a sequence of rate-limit checks for one client at the given
timestamps, threading the limiter state. -/
def runChecks (ip : String) : RateLimiter → List ℚ →
    List RateResult × RateLimiter
  | rl, [] => ([], rl)
  | rl, t :: rest =>
    let step := rl.check_rate_limit ip t
    let tail := runChecks ip step.2 rest
    (step.1 :: tail.1, tail.2)

/-- Claim C10: a rejected check (minute or hour scope) leaves both of the
client windows exactly as lazy pruning left them — the rejected request
timestamp is appended to neither window, so a rejected request never
consumes quota; other clients and the limits are untouched. -/
theorem rate_limit_rejection_consumes_no_quota
    (rl : RateLimiter) (ip : String) (now : ℚ)
    (hrej : (rl.check_rate_limit ip now).1 ≠ RateResult.allowed) :
    (rl.check_rate_limit ip now).2.minute_requests ip =
      clean_old_requests (rl.minute_requests ip) (now - 60) ∧
    (rl.check_rate_limit ip now).2.hour_requests ip =
      clean_old_requests (rl.hour_requests ip) (now - 3600) ∧
    (∀ ip2, ip2 ≠ ip →
      (rl.check_rate_limit ip now).2.minute_requests ip2 =
        rl.minute_requests ip2 ∧
      (rl.check_rate_limit ip now).2.hour_requests ip2 =
        rl.hour_requests ip2) ∧
    (rl.check_rate_limit ip now).2.requests_per_minute =
      rl.requests_per_minute ∧
    (rl.check_rate_limit ip now).2.requests_per_hour =
      rl.requests_per_hour := by
  unfold RateLimiter.check_rate_limit at hrej ⊢
  by_cases h1 : rl.requests_per_minute ≤
      (clean_old_requests (rl.minute_requests ip) (now - 60)).length
  · rw [if_pos h1]
    refine ⟨by simp [fupdate], by simp [fupdate], ?_, rfl, rfl⟩
    intro ip2 hip2
    exact ⟨by simp [fupdate, hip2], by simp [fupdate, hip2]⟩
  · by_cases h2 : rl.requests_per_hour ≤
        (clean_old_requests (rl.hour_requests ip) (now - 3600)).length
    · rw [if_neg h1, if_pos h2]
      refine ⟨by simp [fupdate], by simp [fupdate], ?_, rfl, rfl⟩
      intro ip2 hip2
      exact ⟨by simp [fupdate, hip2], by simp [fupdate, hip2]⟩
    · exact absurd (by simp [h1, h2]) hrej

/-- Witness for `rate_limit_rejection_consumes_no_quota`: a limiter with
a per-minute limit of 1 and one in-window timestamp rejects a check at
time 10 and leaves its windows unchanged. -/
theorem rate_limit_rejection_consumes_no_quota_witness :
    ((⟨1, 200, fun _ => [5], fun _ => [5]⟩ :
        RateLimiter).check_rate_limit "c" 10).2.minute_requests "c" =
      clean_old_requests ((⟨1, 200, fun _ => [5], fun _ => [5]⟩ :
        RateLimiter).minute_requests "c") (10 - 60) ∧
    ((⟨1, 200, fun _ => [5], fun _ => [5]⟩ :
        RateLimiter).check_rate_limit "c" 10).2.hour_requests "c" =
      clean_old_requests ((⟨1, 200, fun _ => [5], fun _ => [5]⟩ :
        RateLimiter).hour_requests "c") (10 - 3600) ∧
    (∀ ip2, ip2 ≠ "c" →
      ((⟨1, 200, fun _ => [5], fun _ => [5]⟩ :
          RateLimiter).check_rate_limit "c" 10).2.minute_requests ip2 =
        (⟨1, 200, fun _ => [5], fun _ => [5]⟩ :
          RateLimiter).minute_requests ip2 ∧
      ((⟨1, 200, fun _ => [5], fun _ => [5]⟩ :
          RateLimiter).check_rate_limit "c" 10).2.hour_requests ip2 =
        (⟨1, 200, fun _ => [5], fun _ => [5]⟩ :
          RateLimiter).hour_requests ip2) ∧
    ((⟨1, 200, fun _ => [5], fun _ => [5]⟩ :
        RateLimiter).check_rate_limit "c" 10).2.requests_per_minute =
      (⟨1, 200, fun _ => [5], fun _ => [5]⟩ :
        RateLimiter).requests_per_minute ∧
    ((⟨1, 200, fun _ => [5], fun _ => [5]⟩ :
        RateLimiter).check_rate_limit "c" 10).2.requests_per_hour =
      (⟨1, 200, fun _ => [5], fun _ => [5]⟩ :
        RateLimiter).requests_per_hour :=
  rate_limit_rejection_consumes_no_quota
    ⟨1, 200, fun _ => [5], fun _ => [5]⟩ "c" 10
    (by
      norm_num [RateLimiter.check_rate_limit, clean_old_requests]
      decide)

lemma runChecks_all_allowed (ip : String) (ts : List ℚ) :
    ∀ (ml hl : List ℚ) (rl : RateLimiter),
    rl.requests_per_minute = 20 → rl.requests_per_hour = 200 →
    rl.minute_requests ip = ml → rl.hour_requests ip = hl →
    (∀ t ∈ ts, ∀ m ∈ ml, t - 60 < m) →
    (∀ t ∈ ts, ∀ m ∈ hl, t - 3600 < m) →
    ts.Pairwise (fun a b => b - a < 60) →
    ml.length + ts.length ≤ 20 → hl.length + ts.length ≤ 200 →
    (runChecks ip rl ts).1 = ts.map (fun _ => RateResult.allowed) ∧
    (runChecks ip rl ts).2.minute_requests ip = ml ++ ts ∧
    (runChecks ip rl ts).2.hour_requests ip = hl ++ ts ∧
    (runChecks ip rl ts).2.requests_per_minute = 20 ∧
    (runChecks ip rl ts).2.requests_per_hour = 200 := by
  induction ts with
  | nil =>
    intro ml hl rl h1 h2 h3 h4 _ _ _ _ _
    exact ⟨rfl, by simp [runChecks, h3], by simp [runChecks, h4],
      by simp [runChecks, h1], by simp [runChecks, h2]⟩
  | cons t rest ih =>
    intro ml hl rl h1 h2 h3 h4 hml hhl hpw hlm hlh
    have hm_eq : clean_old_requests (rl.minute_requests ip) (t - 60) = ml := by
      rw [h3]
      unfold clean_old_requests
      apply List.filter_eq_self.mpr
      intro a ha
      simpa using hml t (by simp) a ha
    have hh_eq : clean_old_requests (rl.hour_requests ip) (t - 3600) = hl := by
      rw [h4]
      unfold clean_old_requests
      apply List.filter_eq_self.mpr
      intro a ha
      simpa using hhl t (by simp) a ha
    have hcond1 : ¬ (rl.requests_per_minute ≤
        (clean_old_requests (rl.minute_requests ip) (t - 60)).length) := by
      rw [hm_eq, h1]
      simp only [List.length_cons] at hlm
      omega
    have hcond2 : ¬ (rl.requests_per_hour ≤
        (clean_old_requests (rl.hour_requests ip) (t - 3600)).length) := by
      rw [hh_eq, h2]
      simp only [List.length_cons] at hlh
      omega
    have hstep : rl.check_rate_limit ip t =
        (RateResult.allowed,
         { rl with
            minute_requests := fupdate rl.minute_requests ip (ml ++ [t]),
            hour_requests := fupdate rl.hour_requests ip (hl ++ [t]) }) := by
      unfold RateLimiter.check_rate_limit
      rw [if_neg hcond1, if_neg hcond2, hm_eq, hh_eq]
    have hhead := List.pairwise_cons.mp hpw
    obtain ⟨ihres, ihmin, ihhour, ihrpm, ihrph⟩ :=
      ih (ml ++ [t]) (hl ++ [t])
        { rl with
            minute_requests := fupdate rl.minute_requests ip (ml ++ [t]),
            hour_requests := fupdate rl.hour_requests ip (hl ++ [t]) }
        h1 h2 (by simp [fupdate]) (by simp [fupdate])
        (by
          intro u hu m hm
          rcases List.mem_append.mp hm with hm2 | hm2
          · exact hml u (by simp [hu]) m hm2
          · have hu60 : u - t < 60 := hhead.1 u hu
            simp only [List.mem_singleton] at hm2
            subst hm2
            linarith)
        (by
          intro u hu m hm
          rcases List.mem_append.mp hm with hm2 | hm2
          · exact hhl u (by simp [hu]) m hm2
          · have hu60 : u - t < 60 := hhead.1 u hu
            simp only [List.mem_singleton] at hm2
            subst hm2
            linarith)
        hhead.2
        (by simp only [List.length_cons] at hlm; simp; omega)
        (by simp only [List.length_cons] at hlh; simp; omega)
    refine ⟨?_, ?_, ?_, ?_, ?_⟩
    · simp only [runChecks, hstep, ihres, List.map_cons]
    · simp only [runChecks, hstep, ihmin]
      simp
    · simp only [runChecks, hstep, ihhour]
      simp
    · simp only [runChecks, hstep, ihrpm]
    · simp only [runChecks, hstep, ihrph]

/-- Claim C7: for a single client under the deployed limits (20 per
minute, 200 per hour), 20 checks within one 60-second span all succeed —
in particular the 20th — the 21st check inside the same window fails with
the minute scope carrying limit 20, and once the 60-second window has
slid past the first call's timestamp (`t1 ≤ t22 - 60`) a subsequent check
succeeds again. -/
theorem rate_limiter_minute_boundary
    (t1 : ℚ) (rest20 : List ℚ) (t21 t22 : ℚ) (ip : String)
    (hlen : rest20.length = 19)
    (hwin : (t1 :: rest20).Pairwise (fun a b => b - a < 60))
    (hwin21 : ∀ t ∈ t1 :: rest20, t21 - t < 60)
    (hslide : t1 ≤ t22 - 60) :
    (runChecks ip rate_limiter (t1 :: rest20)).1 =
      (t1 :: rest20).map (fun _ => RateResult.allowed) ∧
    ((runChecks ip rate_limiter (t1 :: rest20)).2.check_rate_limit ip
      t21).1 = RateResult.minuteExceeded 20 ∧
    (((runChecks ip rate_limiter (t1 :: rest20)).2.check_rate_limit ip
      t21).2.check_rate_limit ip t22).1 = RateResult.allowed := by
  obtain ⟨hres, hmin, hhour, hrpm, hrph⟩ :=
    runChecks_all_allowed ip (t1 :: rest20) [] [] rate_limiter rfl rfl
      rfl rfl (by simp) (by simp) hwin (by simp [hlen])
      (by simp [hlen])
  rw [List.nil_append] at hmin hhour
  have hm21 : clean_old_requests
      ((runChecks ip rate_limiter (t1 :: rest20)).2.minute_requests ip)
      (t21 - 60) = t1 :: rest20 := by
    rw [hmin]
    unfold clean_old_requests
    apply List.filter_eq_self.mpr
    intro a ha
    have := hwin21 a ha
    simp only [decide_eq_true_eq]
    linarith
  have hh21 : clean_old_requests
      ((runChecks ip rate_limiter (t1 :: rest20)).2.hour_requests ip)
      (t21 - 3600) = t1 :: rest20 := by
    rw [hhour]
    unfold clean_old_requests
    apply List.filter_eq_self.mpr
    intro a ha
    have := hwin21 a ha
    simp only [decide_eq_true_eq]
    linarith
  have hcond21 : (runChecks ip rate_limiter
        (t1 :: rest20)).2.requests_per_minute ≤
      (clean_old_requests
        ((runChecks ip rate_limiter (t1 :: rest20)).2.minute_requests ip)
        (t21 - 60)).length := by
    rw [hm21, hrpm]
    simp [hlen]
  have hfst21 : ((runChecks ip rate_limiter
      (t1 :: rest20)).2.check_rate_limit ip t21).1 =
      RateResult.minuteExceeded 20 := by
    unfold RateLimiter.check_rate_limit
    rw [if_pos hcond21]
    simp [hrpm]
  have hs21min : ((runChecks ip rate_limiter
      (t1 :: rest20)).2.check_rate_limit ip t21).2.minute_requests ip =
      t1 :: rest20 := by
    unfold RateLimiter.check_rate_limit
    rw [if_pos hcond21]
    simpa [fupdate] using hm21
  have hs21hour : ((runChecks ip rate_limiter
      (t1 :: rest20)).2.check_rate_limit ip t21).2.hour_requests ip =
      t1 :: rest20 := by
    unfold RateLimiter.check_rate_limit
    rw [if_pos hcond21]
    simpa [fupdate] using hh21
  have hs21rpm : ((runChecks ip rate_limiter
      (t1 :: rest20)).2.check_rate_limit ip t21).2.requests_per_minute =
      20 := by
    unfold RateLimiter.check_rate_limit
    rw [if_pos hcond21]
    simpa using hrpm
  have hs21rph : ((runChecks ip rate_limiter
      (t1 :: rest20)).2.check_rate_limit ip t21).2.requests_per_hour =
      200 := by
    unfold RateLimiter.check_rate_limit
    rw [if_pos hcond21]
    simpa using hrph
  refine ⟨hres, hfst21, ?_⟩
  have hm22len : (clean_old_requests (t1 :: rest20) (t22 - 60)).length
      ≤ 19 := by
    unfold clean_old_requests
    rw [List.filter_cons_of_neg (by simp; linarith)]
    calc (rest20.filter fun req_time => decide (t22 - 60 < req_time)).length
        ≤ rest20.length := List.length_filter_le _ _
      _ = 19 := hlen
  have hh22len : (clean_old_requests (t1 :: rest20) (t22 - 3600)).length
      ≤ 20 := by
    unfold clean_old_requests
    calc ((t1 :: rest20).filter
          fun req_time => decide (t22 - 3600 < req_time)).length
        ≤ (t1 :: rest20).length := List.length_filter_le _ _
      _ = 20 := by simp [hlen]
  generalize hgen : ((runChecks ip rate_limiter
      (t1 :: rest20)).2.check_rate_limit ip t21).2 = s21
    at hs21min hs21hour hs21rpm hs21rph ⊢
  unfold RateLimiter.check_rate_limit
  rw [if_neg (by rw [hs21rpm, hs21min]; omega),
    if_neg (by rw [hs21rph, hs21hour]; omega)]

/-- Witness for `rate_limiter_minute_boundary`: 20 calls at time 0, a
21st call at time 0 rejected with scope minute, and a call at time 60
allowed again. -/
theorem rate_limiter_minute_boundary_witness :
    (runChecks "c" rate_limiter ((0 : ℚ) :: List.replicate 19 (0 : ℚ))).1 =
      ((0 : ℚ) :: List.replicate 19 (0 : ℚ)).map
        (fun _ => RateResult.allowed) ∧
    ((runChecks "c" rate_limiter
        ((0 : ℚ) :: List.replicate 19 (0 : ℚ))).2.check_rate_limit "c"
      0).1 = RateResult.minuteExceeded 20 ∧
    (((runChecks "c" rate_limiter
        ((0 : ℚ) :: List.replicate 19 (0 : ℚ))).2.check_rate_limit "c"
      0).2.check_rate_limit "c" 60).1 = RateResult.allowed :=
  rate_limiter_minute_boundary 0 (List.replicate 19 0) 0 60 "c"
    (by simp)
    (by
      have hrepl : (0 : ℚ) :: List.replicate 19 (0 : ℚ) =
          List.replicate 20 (0 : ℚ) := rfl
      rw [hrepl]
      apply List.pairwise_replicate.mpr
      norm_num)
    (by
      intro t ht
      simp only [List.mem_cons, List.mem_replicate] at ht
      have : t = 0 := by rcases ht with h | h; exact h; exact h.2
      rw [this]
      norm_num)
    (by norm_num)

/-! ## Batch embedding validator

Two inline validation sites share the same logic: the text-chunk path in
`process_video` (`backend/main.py` lines 886–933) and the visual-frame
path in `build_visual_index` (`backend/main.py` lines 513–557).  Each
normalizes the provider response, checks the count invariant, then maps
vectors to units rejecting empty ones. -/

/-- Shape of `genai.embed_content(...)["embedding"]`: a single embedding
object when one input was submitted, or a list of embeddings.  The source
normalizes with `if isinstance(embeddings, dict): embeddings =
[embeddings]`; each embedding object is represented by its `values` list,
exactly what `embedding_to_array` extracts. -/
inductive RawEmbeddings where
  | single (v : Vec)
  | many (vs : List Vec)
deriving DecidableEq, Repr

/-- The normalization step shared by both validation sites. -/
def normalizeEmbeddings : RawEmbeddings → List Vec
  | .single v => [v]
  | .many vs => vs

/-- Python slice `s[:50]` used for the text-path content previews. -/
def take50 (s : String) : String := s.take 50

/-- Failure of the text-chunk validation site (`backend/main.py` lines
904–931).  `countMismatch` carries the data interpolated into the
`HTTPException` detail: both counts and 50-character previews of the
first and last chunk text.  `messageIndexError` models the `IndexError`
Python would raise while BUILDING that message when `chunk_texts` is
empty (`chunk_texts[0]` on an empty list).  `emptyVector` carries the
failing index, as in `ValueError(f"Empty embedding returned for chunk
\x7bi\x7d")`. -/
inductive TextEmbedError where
  | countMismatch (chunks_count embeddings_count : ℕ)
      (first_preview last_preview : String)
  | messageIndexError
  | emptyVector (index : ℕ)
deriving DecidableEq, Repr

/-- Failure of the visual-frame validation site (`backend/main.py` lines
531–554).  `countMismatch` carries both counts and the description sample
interpolated into the message: `descriptions[:2] if len(descriptions) > 1
else descriptions` — the FIRST (up to) TWO descriptions, not the first
and last. -/
inductive VisualEmbedError where
  | countMismatch (frames_count embeddings_count : ℕ)
      (descriptions_sample : List String)
  | emptyVector (index : ℕ)
deriving DecidableEq, Repr

/-- The sample of descriptions interpolated into the visual mismatch
message. -/
def visualMismatchSample (descriptions : List String) : List String :=
  if 1 < descriptions.length then descriptions.take 2 else descriptions

/-- The attachment loop of the text path (`backend/main.py` lines
918–931): pair each chunk with its vector by position, failing at the
first empty vector.  (In the source the loop mutates earlier chunk dicts
in place before discovering an empty vector, but the run then aborts
before anything is published, so the functional model returns either all
pairs or the error.) -/
def attachVectors : List Chunk → List Vec → ℕ →
    Except TextEmbedError (List (Chunk × Vec))
  | [], _, _ => .ok []
  | _ :: _, [], _ => .ok []
  | c :: cs, v :: vs, i =>
    if v = [] then .error (.emptyVector i)
    else
      match attachVectors cs vs (i + 1) with
      | .ok rest => .ok ((c, v) :: rest)
      | .error e => .error e

/-- The text-chunk validation site of `process_video` (`backend/main.py`
lines 892–933): normalize, check the count invariant, then attach. -/
def attachChunkEmbeddings (chunks : List Chunk) (raw : RawEmbeddings) :
    Except TextEmbedError (List (Chunk × Vec)) :=
  let chunk_texts := chunks.map Chunk.text
  let embeddings := normalizeEmbeddings raw
  if embeddings.length ≠ chunks.length then
    match chunk_texts.head?, chunk_texts.getLast? with
    | some f, some l =>
        .error (.countMismatch chunks.length embeddings.length
          (take50 f) (take50 l))
    | _, _ => .error .messageIndexError
  else
    attachVectors chunks embeddings 0

/-- The attachment loop of the visual path (`backend/main.py` lines
541–554); a visual unit is represented by its description string. -/
def attachVisualVectors : List String → List Vec → ℕ →
    Except VisualEmbedError (List (String × Vec))
  | [], _, _ => .ok []
  | _ :: _, [], _ => .ok []
  | d :: ds, v :: vs, i =>
    if v = [] then .error (.emptyVector i)
    else
      match attachVisualVectors ds vs (i + 1) with
      | .ok rest => .ok ((d, v) :: rest)
      | .error e => .error e

/-- The visual-frame validation site of `build_visual_index`
(`backend/main.py` lines 519–557). -/
def attachVisualEmbeddings (descriptions : List String)
    (raw : RawEmbeddings) :
    Except VisualEmbedError (List (String × Vec)) :=
  let embeddings := normalizeEmbeddings raw
  if embeddings.length ≠ descriptions.length then
    .error (.countMismatch descriptions.length embeddings.length
      (visualMismatchSample descriptions))
  else
    attachVisualVectors descriptions embeddings 0

/-- The embedding-relevant result of a successful `process_video` run. -/
structure ProcessedVideo where
  chunks : List (Chunk × Vec)
  visual_index : List (String × Vec)
deriving DecidableEq, Repr

/-- Orchestration of `process_video` around the two validation sites
(`backend/main.py` lines 886–946).  A text-chunk validation failure
propagates out of the handler (re-wrapped as an HTTP error response, but
aborting the run).  The visual-index build, however, is wrapped in `try:
... except Exception as visual_error:` (lines 937–943) whose handler
prints a warning, sets `visual_index = []`, and lets the run SUCCEED. -/
def processVideoEmbedding (chunks : List Chunk) (chunkRaw : RawEmbeddings)
    (descriptions : List String) (visualRaw : RawEmbeddings) :
    Except TextEmbedError ProcessedVideo :=
  match attachChunkEmbeddings chunks chunkRaw with
  | .error e => .error e
  | .ok embChunks =>
    match attachVisualEmbeddings descriptions visualRaw with
    | .error _ => .ok { chunks := embChunks, visual_index := [] }
    | .ok vi => .ok { chunks := embChunks, visual_index := vi }

/-- Claim C2 (amended): a batch-embedding validation failure on the
TEXT-CHUNK path is surfaced to the caller of the processing pipeline as a
hard failure of the run; a validation failure on the VISUAL-FRAME path is
caught by the `except Exception` handler around `build_visual_index`,
logged, and replaced by continuing the run successfully with an empty
visual index. -/
theorem embedding_validation_failure_propagation
    (chunks : List Chunk) (chunkRaw : RawEmbeddings)
    (descriptions : List String) (visualRaw : RawEmbeddings) :
    (∀ e, attachChunkEmbeddings chunks chunkRaw = .error e →
      processVideoEmbedding chunks chunkRaw descriptions visualRaw =
        .error e) ∧
    (∀ embChunks e, attachChunkEmbeddings chunks chunkRaw = .ok embChunks →
      attachVisualEmbeddings descriptions visualRaw = .error e →
      processVideoEmbedding chunks chunkRaw descriptions visualRaw =
        .ok { chunks := embChunks, visual_index := [] }) := by
  constructor
  · intro e he
    simp [processVideoEmbedding, he]
  · intro embChunks e hok herr
    simp [processVideoEmbedding, hok, herr]

set_option maxRecDepth 4000 in
/-- Witness for `embedding_validation_failure_propagation`: one chunk
with two returned vectors makes the run fail hard, while a correct chunk
attachment combined with a failing visual validation yields a successful
run with an empty visual index. -/
theorem embedding_validation_failure_propagation_witness :
    processVideoEmbedding [⟨"a", 0, 3⟩] (RawEmbeddings.many [[1], [1]])
      ["d1"] (RawEmbeddings.many [[1]]) =
      .error (.countMismatch 1 2 "a" "a") ∧
    processVideoEmbedding [⟨"a", 0, 3⟩] (RawEmbeddings.many [[1]])
      ["d1", "d2"] (RawEmbeddings.many [[1]]) =
      .ok { chunks := [(⟨"a", 0, 3⟩, [1])], visual_index := [] } :=
  ⟨(embedding_validation_failure_propagation [⟨"a", 0, 3⟩]
      (RawEmbeddings.many [[1], [1]]) ["d1"]
      (RawEmbeddings.many [[1]])).1
    (.countMismatch 1 2 "a" "a")
    (by rfl),
   (embedding_validation_failure_propagation [⟨"a", 0, 3⟩]
      (RawEmbeddings.many [[1]]) ["d1", "d2"]
      (RawEmbeddings.many [[1]])).2
    [(⟨"a", 0, 3⟩, [1])] (.countMismatch 2 1 ["d1", "d2"])
    (by rfl) (by rfl)⟩

/-- Counterexample to claim C2 as stated: a visual-frame count mismatch
(two descriptions, one vector) is NOT surfaced as a failure of the run —
`process_video` catches it and returns success with an empty visual
index. -/
theorem visual_validation_failure_swallowed :
    attachVisualEmbeddings ["d1", "d2"] (RawEmbeddings.many [[1]]) =
      .error (.countMismatch 2 1 ["d1", "d2"]) ∧
    processVideoEmbedding [⟨"a", 0, 3⟩] (RawEmbeddings.many [[1]])
      ["d1", "d2"] (RawEmbeddings.many [[1]]) =
      .ok { chunks := [(⟨"a", 0, 3⟩, [1])], visual_index := [] } := by
  constructor
  · rfl
  · rfl

/-- Claim C3 (amended): whenever the normalized vector count differs from
the unit count, attachment fails fast with `CountMismatch` and no unit
receives an embedding; the error carries both counts, and additionally,
on the text-chunk path, 50-character previews of the FIRST and LAST input
texts, but on the visual-frame path only a sample of the FIRST (up to)
TWO descriptions — the last input item is not previewed there. -/
theorem count_mismatch_fail_fast
    (chunks : List Chunk) (raw : RawEmbeddings)
    (descriptions : List String) (vraw : RawEmbeddings) (f l : String)
    (hf : (chunks.map Chunk.text).head? = some f)
    (hl : (chunks.map Chunk.text).getLast? = some l)
    (hmm : (normalizeEmbeddings raw).length ≠ chunks.length)
    (hvmm : (normalizeEmbeddings vraw).length ≠ descriptions.length) :
    attachChunkEmbeddings chunks raw =
      .error (.countMismatch chunks.length (normalizeEmbeddings raw).length
        (take50 f) (take50 l)) ∧
    attachVisualEmbeddings descriptions vraw =
      .error (.countMismatch descriptions.length
        (normalizeEmbeddings vraw).length
        (visualMismatchSample descriptions)) := by
  constructor
  · unfold attachChunkEmbeddings
    rw [if_pos hmm, hf, hl]
  · unfold attachVisualEmbeddings
    rw [if_pos hvmm]

/-- Witness for `count_mismatch_fail_fast`: two chunks against one
vector, and two descriptions against one vector. -/
theorem count_mismatch_fail_fast_witness :
    attachChunkEmbeddings [⟨"first text", 0, 3⟩, ⟨"last text", 3, 6⟩]
      (RawEmbeddings.many [[1]]) =
      .error (.countMismatch 2 1 (take50 "first text")
        (take50 "last text")) ∧
    attachVisualEmbeddings ["da", "db"] (RawEmbeddings.single [1]) =
      .error (.countMismatch 2 1 (visualMismatchSample ["da", "db"])) :=
  count_mismatch_fail_fast
    [⟨"first text", 0, 3⟩, ⟨"last text", 3, 6⟩] (RawEmbeddings.many [[1]])
    ["da", "db"] (RawEmbeddings.single [1]) "first text" "last text"
    (by rfl) (by rfl) (by decide) (by decide)

/-- Counterexample to claim C3 as stated: on the visual-frame path with
three descriptions and two vectors, the `CountMismatch` carries only the
first two descriptions as its content sample — the LAST input item,
`"d3"`, appears nowhere in it. -/
theorem visual_mismatch_preview_counterexample :
    attachVisualEmbeddings ["d1", "d2", "d3"]
      (RawEmbeddings.many [[1], [1]]) =
      .error (.countMismatch 3 2 ["d1", "d2"]) ∧
    "d3" ∉ (["d1", "d2"] : List String) := by
  constructor
  · rfl
  · decide

/-! ## Similarity ranker

Two inline ranking sites: the chat retrieval in `chat_with_video`
(`backend/main.py` lines 1086–1115) and the visual search in
`visual_search` (`backend/main.py` lines 1210–1237).

Similarity representation: the source computes the float `cos =
np.dot(q, c) / (‖q‖·‖c‖)`.  The model represents each similarity value
`cos` by its image `cos·|cos| = dot·|dot| / (sumsq q · sumsq c)` under
the strictly increasing bijection `x ↦ x·|x|` of the reals, which is an
exact rational.  Every comparison the ranking code performs — the `< 0`
filter, the sort order, equality of tied scores — is preserved exactly
by this representation, and the invalid-score sentinel `-1.0` (the float
the chat path appends for empty or zero-norm candidates) is the image of
`-1.0` itself.  `‖q‖·‖c‖ = 0` iff `sumsq q · sumsq c = 0`, so the
zero-norm guards translate likewise. -/

/-- Model of `np.dot` for equal-length vectors (the only shapes the
source produces: all embeddings of one model share a dimension). -/
def dot (a b : Vec) : ℚ := (List.zipWith (fun x y => x * y) a b).sum

/-- Sum of squares; `‖a‖ = Real.sqrt (sumsq a)`, so norms and norm
products vanish exactly when the corresponding `sumsq` products do. -/
def sumsq (a : Vec) : ℚ := (a.map (fun x => x * x)).sum

/-- The order-isomorphic rational representative `cos·|cos|` of the
cosine similarity of `q` and `c` (meaningful when `sumsq q * sumsq c ≠
0`). -/
def simRep (q c : Vec) : ℚ :=
  dot q c * |dot q c| / (sumsq q * sumsq c)

/-- One entry of the `similarities` list built by `chat_with_video`
(`backend/main.py` lines 1086–1097): the sentinel `-1` for an empty
candidate embedding or a zero norm product, the cosine representative
otherwise. -/
def chatSimilarity (q c : Vec) : ℚ :=
  if c = [] then -1
  else if sumsq q * sumsq c = 0 then -1
  else simRep q c

/-- A candidate has a valid (well-defined) cosine score: non-empty
embedding and non-vanishing norm product. -/
def validScore (q c : Vec) : Prop := c ≠ [] ∧ sumsq q * sumsq c ≠ 0

instance (q c : Vec) : Decidable (validScore q c) := by
  unfold validScore
  infer_instance

/-- The order used by the model to realize
`np.argsort(similarities)[-5:][::-1]` on (index, similarity) pairs:
similarity descending, ties by index descending.  NumPy's default
`argsort` kind (quicksort/introsort) is documented as NOT stable, so the
source guarantees no particular order among equal similarities; an
executable model must still pick one, and this one picks the order NumPy
actually produces in its small-array regime (plain insertion sort below
the introsort threshold, hence stable ascending, then reversed by
`[::-1]`).  Because the tie order among equal similarities is a modelling
choice, only tie-order-invariant conclusions about `chatRank` — its
length, its membership, its similarity-descending arrangement — transfer
to the source for arbitrary input sizes; concrete evaluations at small
inputs (such as the two-element tie counterexample) also match the
source exactly, since they sit inside the stable regime.  Since indices
are distinct this is a linear order, so the sorted arrangement is unique
and insertion sort computes it. -/
def chatRankOrder (a b : ℕ × ℚ) : Prop :=
  b.2 < a.2 ∨ (a.2 = b.2 ∧ b.1 ≤ a.1)

/-- The linear order realized by `scored.sort(key=lambda x: x[0],
reverse=True)` on (index, similarity) pairs: similarity descending,
ties by original position ASCENDING (Python's sort is stable and
`reverse=True` keeps equal keys in original order). -/
def visualRankOrder (a b : ℕ × ℚ) : Prop :=
  b.2 < a.2 ∨ (a.2 = b.2 ∧ a.1 ≤ b.1)

instance : DecidableRel chatRankOrder := fun a b => by
  unfold chatRankOrder
  infer_instance

instance : DecidableRel visualRankOrder := fun a b => by
  unfold visualRankOrder
  infer_instance

instance : IsTotal (ℕ × ℚ) chatRankOrder := by
  constructor
  intro a b
  unfold chatRankOrder
  rcases lt_trichotomy a.2 b.2 with h | h | h
  · exact Or.inr (Or.inl h)
  · rcases Nat.le_total a.1 b.1 with hi | hi
    · exact Or.inr (Or.inr ⟨h.symm, hi⟩)
    · exact Or.inl (Or.inr ⟨h, hi⟩)
  · exact Or.inl (Or.inl h)

instance : IsTrans (ℕ × ℚ) chatRankOrder := by
  constructor
  intro a b c hab hbc
  unfold chatRankOrder at hab hbc ⊢
  rcases hab with hab | ⟨hab1, hab2⟩
  · rcases hbc with hbc | ⟨hbc1, hbc2⟩
    · exact Or.inl (lt_trans hbc hab)
    · exact Or.inl (hbc1 ▸ hab)
  · rcases hbc with hbc | ⟨hbc1, hbc2⟩
    · exact Or.inl (hab1 ▸ hbc)
    · exact Or.inr ⟨hab1.trans hbc1, le_trans hbc2 hab2⟩

instance : IsTotal (ℕ × ℚ) visualRankOrder := by
  constructor
  intro a b
  unfold visualRankOrder
  rcases lt_trichotomy a.2 b.2 with h | h | h
  · exact Or.inr (Or.inl h)
  · rcases Nat.le_total a.1 b.1 with hi | hi
    · exact Or.inl (Or.inr ⟨h, hi⟩)
    · exact Or.inr (Or.inr ⟨h.symm, hi⟩)
  · exact Or.inl (Or.inl h)

instance : IsTrans (ℕ × ℚ) visualRankOrder := by
  constructor
  intro a b c hab hbc
  unfold visualRankOrder at hab hbc ⊢
  rcases hab with hab | ⟨hab1, hab2⟩
  · rcases hbc with hbc | ⟨hbc1, hbc2⟩
    · exact Or.inl (lt_trans hbc hab)
    · exact Or.inl (hbc1 ▸ hab)
  · rcases hbc with hbc | ⟨hbc1, hbc2⟩
    · exact Or.inl (hab1 ▸ hbc)
    · exact Or.inr ⟨hab1.trans hbc1, le_trans hab2 hbc2⟩

/-- The chat retrieval ranking of `chat_with_video` (`backend/main.py`
lines 1086–1115), as (chunk index, similarity representative) pairs:
build the similarity list (sentinel `-1` for invalid candidates), take
the top five indices by descending similarity via
`np.argsort(similarities)[-5:][::-1]`, then drop every index whose
similarity is negative (`if idx < 0 or similarities[idx] < 0: continue`;
the `idx < 0` disjunct is dead code since argsort yields non-negative
indices). -/
def chatRank (query : Vec) (chunkEmbeddings : List Vec) : List (ℕ × ℚ) :=
  let similarities := chunkEmbeddings.map (chatSimilarity query)
  let sorted := List.insertionSort chatRankOrder similarities.enum
  (sorted.take 5).filter (fun p => !decide (p.2 < 0))

/-- The visual search ranking of `visual_search` (`backend/main.py`
lines 1210–1224), as (frame index, similarity representative) pairs:
score each frame, SKIPPING empty-embedding and zero-norm frames (the
`np.isnan` guard can never fire once the norm product is non-zero in
exact arithmetic), sort by similarity descending with Python's stable
sort, and keep the first eight (`scored[:8]`). -/
def visualRank (query : Vec) (frameEmbeddings : List Vec) :
    List (ℕ × ℚ) :=
  let scored := frameEmbeddings.enum.filterMap (fun p =>
    if p.2 = [] then none
    else if sumsq query * sumsq p.2 = 0 then none
    else some (p.1, simRep query p.2))
  (List.insertionSort visualRankOrder scored).take 8

lemma enumFrom_fst_le {α : Type} (xs : List α) :
    ∀ (m : ℕ) (y : ℕ × α), y ∈ xs.enumFrom m → m ≤ y.1 := by
  induction xs with
  | nil => intro m y hy; cases hy
  | cons x tail ih =>
    intro m y hy
    rw [List.enumFrom_cons, List.mem_cons] at hy
    rcases hy with hy | hy
    · subst hy; exact le_refl m
    · exact le_trans (Nat.le_succ m) (ih (m + 1) y hy)

lemma enumFrom_pairwise_fst_lt {α : Type} (xs : List α) :
    ∀ (m : ℕ), (xs.enumFrom m).Pairwise (fun a b => a.1 < b.1) := by
  induction xs with
  | nil => intro m; simp
  | cons x tail ih =>
    intro m
    rw [List.enumFrom_cons, List.pairwise_cons]
    constructor
    · intro y hy
      exact lt_of_lt_of_le (Nat.lt_succ_self m) (enumFrom_fst_le tail (m + 1) y hy)
    · exact ih (m + 1)

lemma countP_enumFrom_snd {α : Type} (p : α → Bool) (xs : List α) :
    ∀ (m : ℕ), ((xs.enumFrom m).countP (fun q => p q.2)) = xs.countP p := by
  induction xs with
  | nil => intro m; rfl
  | cons x tail ih =>
    intro m
    rw [List.enumFrom_cons, List.countP_cons, List.countP_cons, ih (m + 1)]

lemma visual_scored_length (query : Vec) (frameEmbeddings : List Vec) :
    ∀ (m : ℕ),
    ((frameEmbeddings.enumFrom m).filterMap (fun p =>
      if p.2 = [] then none
      else if sumsq query * sumsq p.2 = 0 then none
      else some (p.1, simRep query p.2))).length =
      frameEmbeddings.countP (fun c => decide (validScore query c)) := by
  induction frameEmbeddings with
  | nil => intro m; rfl
  | cons c rest ih =>
    intro m
    by_cases h1 : c = []
    · rw [List.enumFrom_cons, List.filterMap_cons_none (by simp [h1]),
        ih (m + 1), List.countP_cons_of_neg _ _ (by simp [validScore, h1])]
    · by_cases h2 : sumsq query * sumsq c = 0
      · rw [List.enumFrom_cons, List.filterMap_cons_none (by simp [h1, h2]),
          ih (m + 1),
          List.countP_cons_of_neg _ _ (by simp [validScore, h1, h2])]
      · rw [List.enumFrom_cons,
          List.filterMap_cons_some (b := (m, simRep query c))
            (by simp [h1, h2]),
          List.length_cons, ih (m + 1),
          List.countP_cons_of_pos _ _ (by simp [validScore, h1, h2])]

lemma length_filter_take_sorted (k : ℕ) (l : List (ℕ × ℚ))
    (h : l.Pairwise (fun a b => b.2 ≤ a.2)) :
    ((l.take k).filter (fun p => !decide (p.2 < 0))).length =
      min k (l.countP (fun p => !decide (p.2 < 0))) := by
  induction l generalizing k with
  | nil => simp
  | cons x xs ih =>
    obtain ⟨hx, hxs⟩ := List.pairwise_cons.mp h
    cases k with
    | zero => simp
    | succ k =>
      rw [List.take_succ_cons]
      by_cases hpx : (0 : ℚ) ≤ x.2
      · have hx0 : ¬ x.2 < 0 := not_lt.mpr hpx
        rw [show ((x :: List.take k xs).filter
              (fun p => !decide (p.2 < 0))) =
            x :: (List.take k xs).filter (fun p => !decide (p.2 < 0)) from
            List.filter_cons_of_pos (by simp [hx0])]
        rw [show ((x :: xs).countP (fun p => !decide (p.2 < 0))) =
            xs.countP (fun p => !decide (p.2 < 0)) + 1 from
            List.countP_cons_of_pos _ _ (by simp [hx0])]
        rw [List.length_cons, ih k hxs, Nat.succ_min_succ]
      · push_neg at hpx
        have hall : ∀ y ∈ xs, y.2 < 0 := by
          intro y hy
          exact lt_of_le_of_lt (hx y hy) hpx
        have hcount : xs.countP (fun p => !decide (p.2 < 0)) = 0 := by
          rw [List.countP_eq_zero]
          intro y hy
          simp [hall y hy]
        rw [show ((x :: List.take k xs).filter
              (fun p => !decide (p.2 < 0))) =
            (List.take k xs).filter (fun p => !decide (p.2 < 0)) from
            List.filter_cons_of_neg (by simp [hpx])]
        rw [show ((x :: xs).countP (fun p => !decide (p.2 < 0))) =
            xs.countP (fun p => !decide (p.2 < 0)) from
            List.countP_cons_of_neg _ _ (by simp [hpx])]
        rw [hcount]
        have hnil : (List.take k xs).filter
            (fun p => !decide (p.2 < 0)) = [] := by
          rw [List.filter_eq_nil_iff]
          intro y hy
          simp [hall y (List.mem_of_mem_take hy)]
        rw [hnil]
        simp

/-- Claim C4 (amended): the rankers use fixed result caps (5 for chat, 8
for visual search), not a caller-chosen k.  The visual path returns
exactly `min 8 (number of candidates with a valid score)` — negative
valid scores included, never padding with invalid entries.  The chat
path returns exactly `min 5 (number of candidates with a NON-NEGATIVE
similarity)`: its `similarities[idx] < 0` filter drops candidates with a
valid negative cosine score together with the `-1`-sentinel invalid
ones. -/
theorem ranker_output_size (query : Vec)
    (chunkEmbeddings frameEmbeddings : List Vec) :
    (chatRank query chunkEmbeddings).length =
      min 5 ((chunkEmbeddings.map (chatSimilarity query)).countP
        (fun s => !decide (s < 0))) ∧
    (visualRank query frameEmbeddings).length =
      min 8 (frameEmbeddings.countP
        (fun c => decide (validScore query c))) := by
  constructor
  · show ((List.insertionSort chatRankOrder
        ((chunkEmbeddings.map (chatSimilarity query)).enum)).take 5
        |>.filter (fun p => !decide (p.2 < 0))).length = _
    have hsorted : (List.insertionSort chatRankOrder
        ((chunkEmbeddings.map (chatSimilarity query)).enum)).Pairwise
        (fun a b => b.2 ≤ a.2) := by
      refine List.Pairwise.imp ?_
        (List.sorted_insertionSort chatRankOrder _)
      intro a b hab
      rcases hab with h | ⟨h, _⟩
      · exact le_of_lt h
      · exact le_of_eq h.symm
    rw [length_filter_take_sorted 5 _ hsorted]
    congr 1
    rw [(List.perm_insertionSort chatRankOrder _).countP_eq]
    exact countP_enumFrom_snd (fun s => !decide (s < 0)) _ 0
  · show ((List.insertionSort visualRankOrder _).take 8).length = _
    rw [List.length_take, List.length_insertionSort]
    congr 1
    exact visual_scored_length query frameEmbeddings 0

/-- Counterexample to claim C4 as stated: the single candidate `[-1]`
against query `[1]` has a valid cosine score (non-empty, non-zero
norms), namely `-1`, so the claimed output size is `min(k, 1) = 1` for
every positive k; but the chat ranker returns nothing — valid negative
scores are not eligible on that path. -/
theorem chat_negative_valid_score_dropped :
    validScore [1] [-1] ∧
    ([[-1]] : List Vec).countP (fun c => decide (validScore [1] c)) = 1 ∧
    chatRank [1] [[-1]] = [] := by
  refine ⟨?_, ?_, ?_⟩
  · constructor
    · simp
    · norm_num [sumsq]
  · norm_num [validScore, sumsq]
  · norm_num [chatRank, chatSimilarity, simRep, dot, sumsq,
      List.insertionSort, List.orderedInsert, chatRankOrder,
      List.enum, List.enumFrom]

/-- Claim C5 (amended): both rankers order their output by similarity
DESCENDING.  On the visual path ties additionally appear in ORIGINAL
candidate order (Python's `sort` is stable and `reverse=True` keeps
equal keys in original order).  On the chat path no tie order is
guaranteed at all: `np.argsort`'s default quicksort is documented as
non-stable, so descending similarity is everything the source promises
there — and ties are in particular NOT guaranteed in original candidate
order; in NumPy's small-array stable regime the closing `[::-1]` even
reverses equal-score runs (see the tie counterexample). -/
theorem ranker_ordering (query : Vec)
    (chunkEmbeddings frameEmbeddings : List Vec) :
    (chatRank query chunkEmbeddings).Pairwise
      (fun a b => b.2 ≤ a.2) ∧
    (visualRank query frameEmbeddings).Pairwise
      (fun a b => b.2 < a.2 ∨ (a.2 = b.2 ∧ a.1 < b.1)) := by
  constructor
  · show (((List.insertionSort chatRankOrder
        ((chunkEmbeddings.map (chatSimilarity query)).enum)).take 5
        |>.filter (fun p => !decide (p.2 < 0)))).Pairwise _
    have hsorted : (List.insertionSort chatRankOrder
        ((chunkEmbeddings.map (chatSimilarity query)).enum)).Pairwise
        (fun a b => b.2 ≤ a.2) := by
      refine List.Pairwise.imp ?_
        (List.sorted_insertionSort chatRankOrder _)
      intro a b hab
      rcases hab with h | ⟨h, _⟩
      · exact le_of_lt h
      · exact le_of_eq h.symm
    exact hsorted.sublist
      ((List.filter_sublist _).trans (List.take_sublist _ _))
  · show ((List.insertionSort visualRankOrder
        (frameEmbeddings.enum.filterMap _)).take 8).Pairwise _
    have hsorted := List.sorted_insertionSort visualRankOrder
      (frameEmbeddings.enum.filterMap (fun p =>
        if p.2 = [] then none
        else if sumsq query * sumsq p.2 = 0 then none
        else some (p.1, simRep query p.2)))
    have hltenum := enumFrom_pairwise_fst_lt frameEmbeddings 0
    have hnescored : (frameEmbeddings.enum.filterMap (fun p =>
        if p.2 = [] then none
        else if sumsq query * sumsq p.2 = 0 then none
        else some (p.1, simRep query p.2))).Pairwise
        (fun a b : ℕ × ℚ => a.1 ≠ b.1) := by
      rw [List.pairwise_filterMap]
      refine hltenum.imp ?_
      intro a b hab x hx y hy
      have hxa : x.1 = a.1 := by
        by_cases h1 : a.2 = []
        · simp [h1] at hx
        · by_cases h2 : sumsq query * sumsq a.2 = 0
          · simp [h1, h2] at hx
          · simp [h1, h2] at hx
            rw [← hx]
      have hyb : y.1 = b.1 := by
        by_cases h1 : b.2 = []
        · simp [h1] at hy
        · by_cases h2 : sumsq query * sumsq b.2 = 0
          · simp [h1, h2] at hy
          · simp [h1, h2] at hy
            rw [← hy]
      rw [hxa, hyb]
      exact Nat.ne_of_lt hab
    have hne : (List.insertionSort visualRankOrder
        (frameEmbeddings.enum.filterMap (fun p =>
          if p.2 = [] then none
          else if sumsq query * sumsq p.2 = 0 then none
          else some (p.1, simRep query p.2)))).Pairwise
        (fun a b : ℕ × ℚ => a.1 ≠ b.1) :=
      ((List.perm_insertionSort visualRankOrder _).pairwise_iff
        (by intro a b h heq; exact h heq.symm)).mpr hnescored
    have htarget : (List.insertionSort visualRankOrder
        (frameEmbeddings.enum.filterMap (fun p =>
          if p.2 = [] then none
          else if sumsq query * sumsq p.2 = 0 then none
          else some (p.1, simRep query p.2)))).Pairwise
        (fun a b => b.2 < a.2 ∨ (a.2 = b.2 ∧ a.1 < b.1)) := by
      refine (hsorted.and hne).imp ?_
      intro a b hab
      rcases hab with ⟨h | ⟨heq, hle⟩, hne2⟩
      · exact Or.inl h
      · exact Or.inr ⟨heq, lt_of_le_of_ne hle hne2⟩
    exact htarget.sublist (List.take_sublist _ _)

/-- Counterexample to claim C5 as stated: two identical candidates (both
`[1]`, indices 0 and 1) tie with similarity 1 against query `[1]`, yet
the chat ranker outputs index 1 BEFORE index 0 — not in original
candidate order.  A two-element array sits inside NumPy's stable
insertion-sort regime, so the source's `np.argsort` provably behaves as
modelled on this input: ascending stable argsort gives `[0, 1]` and the
closing `[::-1]` returns index 1 first. -/
theorem chat_tie_order_counterexample :
    chatRank [1] [[1], [1]] = [(1, 1), (0, 1)] := by
  norm_num [chatRank, chatSimilarity, simRep, dot, sumsq,
    List.insertionSort, List.orderedInsert, chatRankOrder,
    List.enum, List.enumFrom]

end VideoAnalysis
